import Mathlib

/-!
Verification of the pxtone-rs noise-instrument decoder and synthesizer.

The definitions in this file are a shallow embedding of the Rust sources:
  * `src/descriptor.rs` — the variable-length "flex" 32-bit codec,
  * `src/pulse.rs`      — the `PTNOISE-` structural parser and PCM types,
  * `src/pulse/noise_builder.rs` — the synthesis engine.

Machine integers are embedded as `Nat`/`Int` with explicit `% 2^w` where the
Rust code wraps; `f64`/`f32` quantities that the program keeps finite are
embedded as exact rationals (`ℚ`), and the one place where an IEEE NaN can
arise (the envelope interpolation `0.0 * 0 / 0.0`) is captured by the small
wrapper type `F` below, whose arithmetic propagates NaN exactly as IEEE does
for the operations the program performs.
-/

namespace Pxtone

/-! ## Flex codec (`src/descriptor.rs`, `read_32_flex`)

The Rust loop reads up to five bytes, stopping after the first byte whose
continuation flag (bit 7) is clear; running out of input is an I/O error
(`none` here).  Note that the loop simply stops after five bytes — a fifth
byte with its continuation flag still set is *not* an error. -/

/-- The byte-collecting loop of `read_32_flex`: read at most `fuel` bytes,
stopping after the first byte with bit 7 clear.  Returns the consumed bytes
and the remaining input, or `none` if the input is exhausted mid-field. -/
def grab : Nat → List Nat → Option (List Nat × List Nat)
  | 0, bytes => some ([], bytes)
  | _ + 1, [] => none
  | fuel + 1, b :: rest =>
    if b &&& 0x80 = 0 then some ([b], rest)
    else
      match grab fuel rest with
      | none => none
      | some (r, rest1) => some (b :: r, rest1)

/-- The little-endian-host branch of `read_32_flex`: assemble the four-byte
output buffer `buf` from the 1–5 consumed bytes (`match len { .. }`).
u8 arithmetic is embedded with explicit `% 256` where the shift wraps. -/
def assembleLE : List Nat → Option (Nat × Nat × Nat × Nat)
  | [r0] =>
    some (r0 &&& 0x7F, 0, 0, 0)
  | [r0, r1] =>
    some ((r0 &&& 0x7F) ||| ((r1 <<< 7) % 256),
          (r1 &&& 0x7F) >>> 1, 0, 0)
  | [r0, r1, r2] =>
    some ((r0 &&& 0x7F) ||| ((r1 <<< 7) % 256),
          ((r1 &&& 0x7F) >>> 1) ||| ((r2 <<< 6) % 256),
          (r2 &&& 0x7F) >>> 2, 0)
  | [r0, r1, r2, r3] =>
    some ((r0 &&& 0x7F) ||| ((r1 <<< 7) % 256),
          ((r1 &&& 0x7F) >>> 1) ||| ((r2 <<< 6) % 256),
          ((r2 &&& 0x7F) >>> 2) ||| ((r3 <<< 5) % 256),
          (r3 &&& 0x7F) >>> 3)
  | [r0, r1, r2, r3, r4] =>
    some ((r0 &&& 0x7F) ||| ((r1 <<< 7) % 256),
          ((r1 &&& 0x7F) >>> 1) ||| ((r2 <<< 6) % 256),
          ((r2 &&& 0x7F) >>> 2) ||| ((r3 <<< 5) % 256),
          ((r3 &&& 0x7F) >>> 3) ||| ((r4 <<< 4) % 256))
  | _ => none

/-- The big-endian-host branch of `read_32_flex`: the same byte expressions
written into the mirrored positions of the output buffer. -/
def assembleBE : List Nat → Option (Nat × Nat × Nat × Nat)
  | [r0] =>
    some (0, 0, 0, r0 &&& 0x7F)
  | [r0, r1] =>
    some (0, 0,
          (r1 &&& 0x7F) >>> 1,
          (r0 &&& 0x7F) ||| ((r1 <<< 7) % 256))
  | [r0, r1, r2] =>
    some (0,
          (r2 &&& 0x7F) >>> 2,
          ((r1 &&& 0x7F) >>> 1) ||| ((r2 <<< 6) % 256),
          (r0 &&& 0x7F) ||| ((r1 <<< 7) % 256))
  | [r0, r1, r2, r3] =>
    some ((r3 &&& 0x7F) >>> 3,
          ((r2 &&& 0x7F) >>> 2) ||| ((r3 <<< 5) % 256),
          ((r1 &&& 0x7F) >>> 1) ||| ((r2 <<< 6) % 256),
          (r0 &&& 0x7F) ||| ((r1 <<< 7) % 256))
  | [r0, r1, r2, r3, r4] =>
    some (((r3 &&& 0x7F) >>> 3) ||| ((r4 <<< 4) % 256),
          ((r2 &&& 0x7F) >>> 2) ||| ((r3 <<< 5) % 256),
          ((r1 &&& 0x7F) >>> 1) ||| ((r2 <<< 6) % 256),
          (r0 &&& 0x7F) ||| ((r1 <<< 7) % 256))
  | _ => none

/-- Reading the 4-byte buffer as a `u32` on a little-endian host
(`mem::transmute` of the buffer, byte 0 least significant). -/
def leU32 : Nat × Nat × Nat × Nat → Nat
  | (b0, b1, b2, b3) => b0 + 256 * b1 + 65536 * b2 + 16777216 * b3

/-- Reading the 4-byte buffer as a `u32` on a big-endian host
(byte 0 most significant). -/
def beU32 : Nat × Nat × Nat × Nat → Nat
  | (b0, b1, b2, b3) => 16777216 * b0 + 65536 * b1 + 256 * b2 + b3

/-- `read_32_flex` as executed on a little-endian host. -/
def read32flexLE (bytes : List Nat) : Option ((Nat × Nat × Nat × Nat) × List Nat) :=
  (grab 5 bytes).bind (fun p => (assembleLE p.1).map (fun buf => (buf, p.2)))

/-- `read_32_flex` as executed on a big-endian host. -/
def read32flexBE (bytes : List Nat) : Option ((Nat × Nat × Nat × Nat) × List Nat) :=
  (grab 5 bytes).bind (fun p => (assembleBE p.1).map (fun buf => (buf, p.2)))

/-- `ReadBytesExt::read_u32_flex` (little-endian host): the assembled 32-bit
pattern reinterpreted as an unsigned integer. -/
def readVarU32 (bytes : List Nat) : Option (Nat × List Nat) :=
  (read32flexLE bytes).map (fun p => (leU32 p.1, p.2))

/-- Two's-complement view of a 32-bit pattern (the `i32` reinterpretation). -/
def i32View (w : Nat) : Int :=
  if w < 2 ^ 31 then (w : Int) else (w : Int) - 2 ^ 32

/-- `ReadBytesExt::read_i32_flex` (little-endian host): the same 32-bit
pattern reinterpreted as a two's-complement signed integer. -/
def readVarI32 (bytes : List Nat) : Option (Int × List Nat) :=
  (read32flexLE bytes).map (fun p => (i32View (leU32 p.1), p.2))

/-- `read_u32_flex` as executed on a big-endian host. -/
def readVarU32BE (bytes : List Nat) : Option (Nat × List Nat) :=
  (read32flexBE bytes).map (fun p => (beU32 p.1, p.2))

/-- The spec's decoding rule, stated in its own words: concatenate the 7-bit
payloads of the consumed groups, lowest-order group first (group `i` at output
bits `7*i .. 7*i+6`), and discard bits at positions 32 and above. -/
def specFlexWord (groups : List Nat) : Nat :=
  (groups.foldr (fun b acc => acc * 128 + b % 128) 0) % 2 ^ 32

/-! Bridge lemmas from the u8 bit operations to plain arithmetic. -/

lemma and127 (a : Nat) : a &&& 127 = a % 128 := by
  simpa using Nat.and_pow_two_sub_one_eq_mod a 7

lemma lor_eq_add (i x y : Nat) (hx : x < 2 ^ i) : x ||| 2 ^ i * y = x + 2 ^ i * y := by
  rw [Nat.or_comm, ← Nat.mul_add_lt_is_or hx y]
  exact Nat.add_comm _ _

lemma shl_mod_7 (b : Nat) : (b <<< 7) % 256 = 2 ^ 7 * (b % 2) := by
  rw [Nat.shiftLeft_eq]; omega

lemma shl_mod_6 (b : Nat) : (b <<< 6) % 256 = 2 ^ 6 * (b % 4) := by
  rw [Nat.shiftLeft_eq]; omega

lemma shl_mod_5 (b : Nat) : (b <<< 5) % 256 = 2 ^ 5 * (b % 8) := by
  rw [Nat.shiftLeft_eq]; omega

lemma shl_mod_4 (b : Nat) : (b <<< 4) % 256 = 2 ^ 4 * (b % 16) := by
  rw [Nat.shiftLeft_eq]; omega

lemma shr_div (a k : Nat) : a >>> k = a / 2 ^ k :=
  Nat.shiftRight_eq_div_pow a k

lemma or_hi_7 (a b : Nat) : (a % 128) ||| (2 ^ 7 * (b % 2)) = a % 128 + 128 * (b % 2) := by
  rw [lor_eq_add 7 _ _ (by omega)]; omega

lemma or_hi_6 (a b : Nat) :
    (a % 128 / 2 ^ 1) ||| (2 ^ 6 * (b % 4)) = a % 128 / 2 + 64 * (b % 4) := by
  rw [lor_eq_add 6 _ _ (by omega)]; omega

lemma or_hi_5 (a b : Nat) :
    (a % 128 / 2 ^ 2) ||| (2 ^ 5 * (b % 8)) = a % 128 / 4 + 32 * (b % 8) := by
  rw [lor_eq_add 5 _ _ (by omega)]; omega

lemma or_hi_4 (a b : Nat) :
    (a % 128 / 2 ^ 3) ||| (2 ^ 4 * (b % 16)) = a % 128 / 8 + 16 * (b % 16) := by
  rw [lor_eq_add 4 _ _ (by omega)]; omega

/-- Core assembly identity: on every byte list the LE branch accepts, the
little-endian `u32` view of the assembled buffer is the payload concatenation
described by the spec, truncated to 32 bits. -/
lemma assembleLE_spec (r : List Nat) (buf : Nat × Nat × Nat × Nat)
    (h256 : ∀ b ∈ r, b < 256) (he : assembleLE r = some buf) :
    leU32 buf = specFlexWord r := by
  match r, he with
  | [r0], he =>
    have h0 := h256 r0 (by simp)
    cases he
    simp only [leU32, specFlexWord, List.foldr_cons, List.foldr_nil, and127]
    omega
  | [r0, r1], he =>
    have h0 := h256 r0 (by simp); have h1 := h256 r1 (by simp)
    cases he
    simp only [leU32, specFlexWord, List.foldr_cons, List.foldr_nil, and127, shr_div,
      shl_mod_7, or_hi_7]
    omega
  | [r0, r1, r2], he =>
    have h0 := h256 r0 (by simp); have h1 := h256 r1 (by simp)
    have h2 := h256 r2 (by simp)
    cases he
    simp only [leU32, specFlexWord, List.foldr_cons, List.foldr_nil, and127, shr_div,
      shl_mod_7, shl_mod_6, or_hi_7, or_hi_6]
    omega
  | [r0, r1, r2, r3], he =>
    have h0 := h256 r0 (by simp); have h1 := h256 r1 (by simp)
    have h2 := h256 r2 (by simp); have h3 := h256 r3 (by simp)
    cases he
    simp only [leU32, specFlexWord, List.foldr_cons, List.foldr_nil, and127, shr_div,
      shl_mod_7, shl_mod_6, shl_mod_5, or_hi_7, or_hi_6, or_hi_5]
    omega
  | [r0, r1, r2, r3, r4], he =>
    have h0 := h256 r0 (by simp); have h1 := h256 r1 (by simp)
    have h2 := h256 r2 (by simp); have h3 := h256 r3 (by simp)
    have h4 := h256 r4 (by simp)
    cases he
    simp only [leU32, specFlexWord, List.foldr_cons, List.foldr_nil, and127, shr_div,
      shl_mod_7, shl_mod_6, shl_mod_5, shl_mod_4, or_hi_7, or_hi_6, or_hi_5, or_hi_4]
    omega

/-- The LE and BE buffers carry the same 32-bit value under their respective
host byte orders, for every byte list. -/
lemma assemble_endian_agree (r : List Nat) :
    (assembleLE r).map leU32 = (assembleBE r).map beU32 := by
  match r with
  | [] => rfl
  | [r0] => simp [assembleLE, assembleBE, leU32, beU32] <;> omega
  | [r0, r1] => simp [assembleLE, assembleBE, leU32, beU32] <;> omega
  | [r0, r1, r2] => simp [assembleLE, assembleBE, leU32, beU32] <;> omega
  | [r0, r1, r2, r3] => simp [assembleLE, assembleBE, leU32, beU32] <;> omega
  | [r0, r1, r2, r3, r4] => simp [assembleLE, assembleBE, leU32, beU32] <;> omega
  | _ :: _ :: _ :: _ :: _ :: _ :: _ => rfl

/-- C6: The flex decoder is endian-portable — on every input byte sequence the
little-endian branch (read back with native little-endian order) and the
big-endian branch (read back with native big-endian order) of `read_32_flex`
yield the identical 32-bit value. -/
theorem flex_endian_portable (bytes : List Nat) :
    readVarU32 bytes = readVarU32BE bytes := by
  simp only [readVarU32, readVarU32BE, read32flexLE, read32flexBE]
  cases hg : grab 5 bytes with
  | none => rfl
  | some p =>
    obtain ⟨r, rest⟩ := p
    have h := assemble_endian_agree r
    simp only [Option.some_bind]
    cases hle : assembleLE r with
    | none =>
      cases hbe : assembleBE r with
      | none => rfl
      | some w => rw [hle, hbe] at h; simp at h
    | some v =>
      cases hbe : assembleBE r with
      | none => rw [hle, hbe] at h; simp at h
      | some w =>
        rw [hle, hbe] at h
        simp only [Option.map_some', Option.some.injEq] at h
        simp [h]

lemma and128_of_hi (b : Nat) (hlo : 128 ≤ b) (hhi : b < 256) : ¬ (b &&& 0x80 = 0) := by
  have h := Nat.and_two_pow b 7
  have ht : b.testBit 7 = true := by
    rw [Nat.testBit_to_div_mod]
    simp only [decide_eq_true_eq]
    omega
  rw [ht] at h
  norm_num at h
  omega

/-- C5: for every flex field of 1–5 groups the decoded 32-bit word places
group `i`'s 7 payload bits at output bits `7*i .. 7*i+6`, discarding assembled
bits at positions 32 and above; and the `i32` accessor reinterprets the very
same 32-bit pattern (two's complement view) rather than numerically
converting. -/
theorem flex_bit_placement (r : List Nat) (buf : Nat × Nat × Nat × Nat)
    (h256 : ∀ b ∈ r, b < 256) (he : assembleLE r = some buf) :
    leU32 buf = specFlexWord r ∧
    (∀ bytes, readVarI32 bytes
        = (readVarU32 bytes).map (fun p => (i32View p.1, p.2))) := by
  refine ⟨assembleLE_spec r buf h256 he, fun bytes => ?_⟩
  simp only [readVarI32, readVarU32]
  cases read32flexLE bytes with
  | none => rfl
  | some p => rfl

/-- Witness for C5 at the concrete 3-group field `[0xC4, 0xD8, 0x02]`
(the flex encoding of 44100). -/
theorem flex_bit_placement_witness :
    leU32 (68, 172, 0, 0) = specFlexWord [196, 216, 2] :=
  (flex_bit_placement [196, 216, 2] (68, 172, 0, 0) (by decide) (by decide)).1

/-- C4 (counterexample): on an input whose first five bytes all have bit 7
(the continuation flag) set, the flex decoder does not fail with any
invalid-variable-length error — it succeeds, returning the value assembled
from the five bytes. -/
theorem five_cont_bytes_decode_succeeds :
    readVarU32 [0x80, 0x80, 0x80, 0x80, 0x80] = some (0, []) := by decide

/-- C4 (amended): for every byte source whose first five bytes all have the
continuation flag set, decoding consumes exactly those five bytes and
succeeds, returning the word assembled from their payload bits (bits at
positions 32 and above discarded); no invalid-variable-length error exists in
the code. -/
theorem five_cont_bytes_decode_value
    (b0 b1 b2 b3 b4 : Nat) (rest : List Nat)
    (h0 : 128 ≤ b0) (h0b : b0 < 256) (h1 : 128 ≤ b1) (h1b : b1 < 256)
    (h2 : 128 ≤ b2) (h2b : b2 < 256) (h3 : 128 ≤ b3) (h3b : b3 < 256)
    (h4 : 128 ≤ b4) (h4b : b4 < 256) :
    readVarU32 (b0 :: b1 :: b2 :: b3 :: b4 :: rest)
      = some (specFlexWord [b0, b1, b2, b3, b4], rest) := by
  have g : grab 5 (b0 :: b1 :: b2 :: b3 :: b4 :: rest)
      = some ([b0, b1, b2, b3, b4], rest) := by
    simp [grab, and128_of_hi b0 h0 h0b, and128_of_hi b1 h1 h1b,
      and128_of_hi b2 h2 h2b, and128_of_hi b3 h3 h3b, and128_of_hi b4 h4 h4b]
  obtain ⟨buf, hbuf⟩ : ∃ buf, assembleLE [b0, b1, b2, b3, b4] = some buf := ⟨_, rfl⟩
  have hmem : ∀ b ∈ [b0, b1, b2, b3, b4], b < 256 := by
    intro b hb
    simp only [List.mem_cons, List.not_mem_nil, or_false] at hb
    rcases hb with rfl | rfl | rfl | rfl | rfl <;> omega
  have hs := assembleLE_spec _ buf hmem hbuf
  rw [readVarU32, read32flexLE, g, Option.some_bind, hbuf]
  simp [hs]

/-- Witness for the amended C4 at the concrete input `[255,255,255,255,255,7]`. -/
theorem five_cont_bytes_decode_value_witness :
    readVarU32 [255, 255, 255, 255, 255, 7]
      = some (specFlexWord [255, 255, 255, 255, 255], [7]) :=
  five_cont_bytes_decode_value 255 255 255 255 255 [7]
    (by decide) (by decide) (by decide) (by decide) (by decide)
    (by decide) (by decide) (by decide) (by decide) (by decide)

/-! ## Instrument data model and parser (`src/pulse.rs`)

`Noise::new` reads the signature, a fixed-width little-endian version, the
flex `smp_num_44k`, a unit-count byte, then `unit_num` units.  The source
signals structural violations with `assert!`, which aborts the whole parse;
each assertion site is embedded as the corresponding error kind below.

The per-unit parser `NoiseUnit::new` decodes `f32` fields through IEEE bit
patterns, which no stated property depends on; it is therefore passed in as a
parameter `pu`, and every theorem about the parser holds for all `pu`. -/

inductive PErr where
  | badSignature
  | unsupportedVersion
  | tooManyUnits
  | truncatedInput
  | unsupportedTarget
  deriving DecidableEq, Repr

/-- `Point { x, y }` from `src/helper.rs`. -/
structure Pt where
  x : Int
  y : Int
  deriving DecidableEq, Repr

/-- The 17 `NoiseWave` variants, in source order. -/
inductive NWave where
  | none | sine | saw | rect | random | saw2 | rect2 | tri
  | random2 | rect3 | rect4 | rect8 | rect16 | saw3 | saw4 | saw6 | saw8
  deriving DecidableEq, Repr

/-- `NoiseOscillator`: parsed oscillator descriptor.  The `f32` fields
(already divided by 10 and clamped by the parser, hence finite) are embedded
as exact rationals. -/
structure NOsc where
  wave : NWave
  rev : Bool
  freq : ℚ
  volu : ℚ
  offset : ℚ
  deriving DecidableEq, Repr

/-- `NoiseUnit`: one parsed unit. -/
structure NUnit where
  enable : Bool
  enves : List Pt
  pan : Int
  main : Option NOsc
  freq : Option NOsc
  volu : Option NOsc
  deriving DecidableEq, Repr

/-- `Noise`: the parsed instrument document. -/
structure NoiseDoc where
  units : List NUnit
  smp_num_44k : Nat
  deriving DecidableEq, Repr

/-- `b"PTNOISE-"`. -/
def NOISE_CODE : List Nat := [0x50, 0x54, 0x4E, 0x4F, 0x49, 0x53, 0x45, 0x2D]

/-- `Noise::VERSION`. -/
def NOISE_VERSION : Nat := 20120418

/-- `Noise::MAX_UNIT_NUM`. -/
def MAX_UNIT_NUM : Nat := 4

/-- `Noise::LIMIT_SMP_NUM = 48000 * 10`. -/
def LIMIT_SMP_NUM : Nat := 480000

/-- `read_exact` into an `n`-byte buffer. -/
def readExactN (n : Nat) (bytes : List Nat) : Option (List Nat × List Nat) :=
  if n ≤ bytes.length then some (bytes.take n, bytes.drop n) else none

/-- `read_u8`. -/
def readU8 : List Nat → Option (Nat × List Nat)
  | [] => none
  | b :: rest => some (b, rest)

/-- `read_u32::<LittleEndian>`. -/
def readU32LE : List Nat → Option (Nat × List Nat)
  | b0 :: b1 :: b2 :: b3 :: rest =>
    some (b0 + 256 * b1 + 65536 * b2 + 16777216 * b3, rest)
  | _ => none

/-- The `for _ in 0..unit_num { units.push(NoiseUnit::new(..)?) }` loop,
with the unit parser `pu` a parameter. -/
def parseUnits (pu : List Nat → Except PErr (NUnit × List Nat)) :
    Nat → List Nat → Except PErr (List NUnit × List Nat)
  | 0, bytes => .ok ([], bytes)
  | n + 1, bytes =>
    match pu bytes with
    | .error e => .error e
    | .ok (u, rest) =>
      match parseUnits pu n rest with
      | .error e => .error e
      | .ok (us, rest1) => .ok (u :: us, rest1)

/-- Sequencing of a fixed-width or flex read inside the parser: a failed read
is the I/O error propagated by `?` (here `truncatedInput`). -/
def step {α β : Type} (o : Option (α × List Nat))
    (k : α → List Nat → Except PErr β) : Except PErr β :=
  match o with
  | none => .error .truncatedInput
  | some (a, rest) => k a rest

lemma step_some {α β : Type} (a : α) (rest : List Nat)
    (k : α → List Nat → Except PErr β) : step (some (a, rest)) k = k a rest := rfl

/-- `Noise::new`: signature, fixed LE version (`assert!(version <= VERSION)`),
flex `smp_num_44k` clamped to `LIMIT_SMP_NUM`, unit-count byte
(`assert!(unit_num <= MAX_UNIT_NUM)`), then the units. -/
def parseNoise (pu : List Nat → Except PErr (NUnit × List Nat))
    (bytes : List Nat) : Except PErr (NoiseDoc × List Nat) :=
  step (readExactN 8 bytes) (fun code rest0 =>
  if code ≠ NOISE_CODE then .error .badSignature else
  step (readU32LE rest0) (fun version rest1 =>
  if ¬ version ≤ NOISE_VERSION then .error .unsupportedVersion else
  step (readVarU32 rest1) (fun v rest2 =>
  let smp_num_44k := min v LIMIT_SMP_NUM
  step (readU8 rest2) (fun unit_num rest3 =>
  if ¬ unit_num ≤ MAX_UNIT_NUM then .error .tooManyUnits else
  match parseUnits pu unit_num rest3 with
  | .error e => .error e
  | .ok (us, rest4) => .ok (⟨us, smp_num_44k⟩, rest4)))))

/-- A byte list that is a complete flex-encoded field: the decoder consumes
exactly these bytes, whatever follows. -/
def IsFlexField (dur : List Nat) : Prop :=
  ∀ rest : List Nat, ∃ w, readVarU32 (dur ++ rest) = some (w, rest)

/-- C8: for every input whose header is well formed (valid signature,
supported fixed-width version, any complete flex duration field) and whose
unit-count byte exceeds 4, parsing fails with the too-many-units error — and
it does so for every continuation `rest` and every unit parser `pu`, i.e.
before any bytes of any unit are consumed. -/
theorem unit_count_overflow_fails_early
    (pu : List Nat → Except PErr (NUnit × List Nat))
    (v0 v1 v2 v3 : Nat) (dur : List Nat) (c : Nat) (rest : List Nat)
    (hver : v0 + 256 * v1 + 65536 * v2 + 16777216 * v3 ≤ NOISE_VERSION)
    (hdur : IsFlexField dur) (hc : 4 < c) :
    parseNoise pu (NOISE_CODE ++ [v0, v1, v2, v3] ++ dur ++ (c :: rest))
      = .error .tooManyUnits := by
  obtain ⟨w, hw⟩ := hdur (c :: rest)
  rw [parseNoise]
  rw [show readExactN 8 (NOISE_CODE ++ [v0, v1, v2, v3] ++ dur ++ (c :: rest))
      = some (NOISE_CODE, [v0, v1, v2, v3] ++ dur ++ (c :: rest)) from rfl]
  rw [step_some]
  rw [if_neg (fun h => h rfl)]
  rw [show readU32LE ([v0, v1, v2, v3] ++ dur ++ (c :: rest))
      = some (v0 + 256 * v1 + 65536 * v2 + 16777216 * v3, dur ++ (c :: rest)) from rfl]
  rw [step_some]
  rw [if_neg (not_not_intro hver)]
  rw [hw, step_some]
  rw [show readU8 (c :: rest) = some (c, rest) from rfl]
  rw [step_some]
  rw [if_pos (show ¬ c ≤ MAX_UNIT_NUM by simp only [MAX_UNIT_NUM]; omega)]

/-- Witness for C8: the concrete buffer with version 20120418, duration field
`flex(44100) = [0xC4, 0xD8, 0x02]` and unit-count byte 5. -/
theorem unit_count_overflow_fails_early_witness :
    parseNoise (fun _ => .error .truncatedInput)
      (NOISE_CODE ++ [0x62, 0x03, 0x33, 0x01] ++ [0xC4, 0xD8, 0x02] ++ (5 :: []))
      = .error .tooManyUnits :=
  unit_count_overflow_fails_early _ 0x62 0x03 0x33 0x01 [0xC4, 0xD8, 0x02] 5 []
    (by decide) (fun rest => ⟨44100, rfl⟩) (by decide)

/-! ## Synthesis engine (`src/pulse/noise_builder.rs`)

`f64` state that the program keeps finite (oscillator increments, offsets,
volumes, pan gains, envelope magnitudes) is embedded as `ℚ`; the per-sample
value, which can become NaN through the envelope factor `0.0 * 0 / 0.0`, is
embedded in `F`.  Rust `as i32` / `as usize` casts from floats saturate and
send NaN to zero, modeled below.  The tables of `noise_table.rs` and
`frequency_table.rs` are not part of the given sources; their contents are
abstract (`Tables`), and their lengths are modelled from the spec. -/

def BASIC_SPS : Nat := 44100

def BASIC_FREQUENCY : Nat := 100

def KEY_TOP : Nat := 0x3200

/-- `i16::max_value() as f64`. -/
def SAMPLING_TOP : ℚ := 32767

/-- Modelled from the spec: the deterministic wave tables (in the absent
`noise_table.rs`) each hold one 441-sample cycle (100 Hz at 44100 Hz). -/
def SMP_NUM : Nat := 441

/-- Modelled from the spec: the shared pseudo-random table (in the absent
`noise_table.rs`) holds 44100 entries. -/
def SMP_NUM_RAND : Nat := 44100

/-- An `f64` as this program produces it: a finite value (exact rational) or
NaN.  Parsed numeric fields are finite (the parser clamps them), so the only
division with a zero denominator the program can reach is `0.0 / 0.0` in the
envelope factor, which is NaN; `F.div` maps every zero denominator to NaN. -/
inductive F where
  | fin : ℚ → F
  | nan : F
  deriving DecidableEq, Repr

def F.add : F → F → F
  | .fin a, .fin b => .fin (a + b)
  | _, _ => .nan

def F.mul : F → F → F
  | .fin a, .fin b => .fin (a * b)
  | _, _ => .nan

def F.div : F → F → F
  | .fin a, .fin b => if b = 0 then .nan else .fin (a / b)
  | _, _ => .nan

/-- Truncation toward zero: the rounding used by Rust `as` casts from floats. -/
def ratTrunc (q : ℚ) : Int := Int.tdiv q.num q.den

/-- Saturation to the `i32` range (`as i32` on an out-of-range float). -/
def satI32 (i : Int) : Int := max (-2147483648) (min 2147483647 i)

/-- `f64 as i32`: NaN to 0, otherwise truncate toward zero and saturate. -/
def F.toI32 : F → Int
  | .nan => 0
  | .fin q => satI32 (ratTrunc q)

/-- `f64 as i32` for a value known finite. -/
def ratToI32 (q : ℚ) : Int := satI32 (ratTrunc q)

/-- `f64 as usize` (negative saturates to 0). -/
def ratToUsize (q : ℚ) : Nat := (ratTrunc q).toNat

/-- `i32 as u32` reinterpretation. -/
def i32AsU32 (i : Int) : Nat := (i % 4294967296).toNat

/-- The process-wide tables: the fourteen deterministic wave tables and the
random table (`noise_table.rs`, absent from the sources) as total index
functions into `i16` values, plus `Frequency::get` (whose `FREQUENCY_TABLE`
lives in the absent `frequency_table.rs`) abstracted as `freqGet`. -/
structure Tables where
  sine : Nat → Int
  saw : Nat → Int
  rect : Nat → Int
  saw2 : Nat → Int
  rect2 : Nat → Int
  tri : Nat → Int
  rect3 : Nat → Int
  rect4 : Nat → Int
  rect8 : Nat → Int
  rect16 : Nat → Int
  saw3 : Nat → Int
  saw4 : Nat → Int
  saw6 : Nat → Int
  saw8 : Nat → Int
  random : Nat → Int
  freqGet : Int → ℚ

/-- A concrete instance of `Tables` used to instantiate witnesses. -/
def zeroTables : Tables :=
  ⟨fun _ => 0, fun _ => 0, fun _ => 0, fun _ => 0, fun _ => 0, fun _ => 0,
   fun _ => 0, fun _ => 0, fun _ => 0, fun _ => 0, fun _ => 0, fun _ => 0,
   fun _ => 0, fun _ => 0, fun _ => 0, fun _ => 0⟩

inductive RawKind where
  | sine | saw | rect | saw2 | rect2 | tri | rect3 | rect4 | rect8 | rect16
  | saw3 | saw4 | saw6 | saw8
  deriving DecidableEq, Repr

inductive RandomKind where
  | saw | rect
  deriving DecidableEq, Repr

inductive BWave where
  | none
  | raw (kind : RawKind)
  | random (kind : RandomKind) (start margin : Int) (index : Nat)
  deriving DecidableEq, Repr

inductive OscKind where
  | main | volu | freq
  deriving DecidableEq, Repr

/-- `NoiseBuilderOscillator`. -/
structure BOsc where
  kind : OscKind
  wave : BWave
  rev : Bool
  increment : ℚ
  volu : ℚ
  offset : ℚ
  deriving DecidableEq, Repr

/-- `NoiseBuilderPoint`. -/
structure BPoint where
  smp : Int
  mag : ℚ
  deriving DecidableEq, Repr

/-- `NoiseBuilderUnit`: the per-unit synthesis runtime state. -/
structure BUnit where
  enable : Bool
  pan : ℚ × ℚ
  enves : List BPoint
  enve_index : Nat
  enve_mag_start : ℚ
  enve_mag_margin : ℚ
  enve_count : Nat
  main : BOsc
  freq : BOsc
  volu : BOsc
  deriving DecidableEq, Repr

/-- `NoiseBuilderWave::init_random` index computation:
`(f64::from(SMP_NUM_RAND as u32) * f64::from(offset) / 100.0) as usize`. -/
def initRandomIndex (offset : ℚ) : Nat :=
  ratToUsize ((SMP_NUM_RAND : ℚ) * offset / 100)

/-- `NoiseBuilderWave::init_random` (the other `NoiseWave` variants are
unreachable at its call site and fall into the `Random2` arm here). -/
def initRandom (T : Tables) (w : NWave) (offset : ℚ) : BWave :=
  let kind := match w with
    | .random => RandomKind.rect
    | _ => RandomKind.saw
  let index := initRandomIndex offset
  BWave.random kind 0 (T.random index) index

/-- `NoiseBuilderOscillator::empty`. -/
def oscEmpty (kind : OscKind) : BOsc := ⟨kind, .none, false, 0, 0, 0⟩

/-- The `match &osc.wave { .. }` table selection in
`NoiseBuilderOscillator::new`. -/
def waveOf (T : Tables) (osc : NOsc) : BWave :=
  match osc.wave with
  | .none => .none
  | .sine => .raw .sine
  | .saw => .raw .saw
  | .rect => .raw .rect
  | .saw2 => .raw .saw2
  | .rect2 => .raw .rect2
  | .tri => .raw .tri
  | .rect3 => .raw .rect3
  | .rect4 => .raw .rect4
  | .rect8 => .raw .rect8
  | .rect16 => .raw .rect16
  | .saw3 => .raw .saw3
  | .saw4 => .raw .saw4
  | .saw6 => .raw .saw6
  | .saw8 => .raw .saw8
  | w => initRandom T w osc.offset

/-- `NoiseBuilderOscillator::new`. -/
def oscNew (T : Tables) (osc : NOsc) (kind : OscKind) (sps : Nat) : BOsc :=
  let wave := waveOf T osc
  let rev := osc.rev
  let increment := ((BASIC_SPS : ℚ) / (sps : ℚ)) * (osc.freq / (BASIC_FREQUENCY : ℚ))
  let volu := osc.volu / 100
  let offset : ℚ :=
    match osc.wave with
    | .random => (SMP_NUM : ℚ) * osc.offset / 100
    | .random2 => (SMP_NUM : ℚ) * osc.offset / 100
    | _ => 0
  ⟨kind, wave, rev, increment, volu, offset⟩

/-- The pan-to-gain-pair resolution in `NoiseBuilderUnit::new`
(`[left, right]` embedded as `(fst, snd)`). -/
def panOf (pan : Int) : ℚ × ℚ :=
  if pan = 0 then (1, 1)
  else if pan < 0 then (1, (100 + (pan : ℚ)) / 100)
  else ((100 + (pan : ℚ)) / 100, 1)

/-- `NoiseBuilderUnit::new`.  Envelope conversion:
`smp = (sps as i32) * enve.x / 1000` (i32 division truncates toward zero),
`mag = f64::from(enve.y) / 100.0`. -/
def unitNew (T : Tables) (u : NUnit) (sps : Nat) : BUnit where
  enable := u.enable
  pan := panOf u.pan
  enves := u.enves.map (fun e => ⟨Int.tdiv ((sps : Int) * e.x) 1000, (e.y : ℚ) / 100⟩)
  enve_index := 0
  enve_mag_start := 0
  enve_mag_margin := 0
  enve_count := 0
  main := match u.main with | some o => oscNew T o .main sps | Option.none => oscEmpty .main
  freq := match u.freq with | some o => oscNew T o .freq sps | Option.none => oscEmpty .freq
  volu := match u.volu with | some o => oscNew T o .volu sps | Option.none => oscEmpty .volu

/-- `NoiseBuilderWave::get_sample` (i32 division truncates toward zero). -/
def waveGet (T : Tables) (w : BWave) (offset : Nat) : Int :=
  match w with
  | .none => 0
  | .raw .sine => T.sine offset
  | .raw .saw => T.saw offset
  | .raw .rect => T.rect offset
  | .raw .saw2 => T.saw2 offset
  | .raw .rect2 => T.rect2 offset
  | .raw .tri => T.tri offset
  | .raw .rect3 => T.rect3 offset
  | .raw .rect4 => T.rect4 offset
  | .raw .rect8 => T.rect8 offset
  | .raw .rect16 => T.rect16 offset
  | .raw .saw3 => T.saw3 offset
  | .raw .saw4 => T.saw4 offset
  | .raw .saw6 => T.saw6 offset
  | .raw .saw8 => T.saw8 offset
  | .random .rect start margin _ => start + Int.tdiv (margin * (offset : Int)) (SMP_NUM : Int)
  | .random .saw start _ _ => start

/-- `NoiseBuilderOscillator::get_sample` — always finite (table values are
integers, the scalings are finite). -/
def oscGetSample (T : Tables) (o : BOsc) : ℚ :=
  let offI : Int := ratToI32 o.offset
  let w0 : ℚ :=
    match o.kind with
    | .main => if 0 ≤ offI then ((waveGet T o.wave (i32AsU32 offI) : Int) : ℚ) else 0
    | _ => ((waveGet T o.wave (i32AsU32 offI) : Int) : ℚ)
  let w1 : ℚ :=
    match o.kind, o.wave with
    | .freq, .raw _ => w0 * ((KEY_TOP : ℚ) / SAMPLING_TOP)
    | _, _ => w0
  let w2 : ℚ := if o.rev then w1 * (-1) else w1
  w2 * o.volu

/-- `NoiseBuilderOscillator::increment`: advance the phase with the one-shot
wrap correction, then refresh the random-wave interpolation state. -/
def oscStep (T : Tables) (o : BOsc) (inc : ℚ) : BOsc :=
  let offset0 := o.offset + inc
  let offset1 :=
    if offset0 > (SMP_NUM : ℚ) then
      let temp := offset0 - (SMP_NUM : ℚ)
      if temp > 0 then temp else 0
    else offset0
  let wave :=
    match o.wave with
    | .random k _ _ index =>
      let next_start := T.random index
      let next_index := if SMP_NUM_RAND ≤ index then 0 else index
      let next_margin := T.random next_index - next_start
      BWave.random k next_start next_margin next_index
    | w => w
  { o with offset := offset1, wave := wave }

/-- The `while self.enve_index < self.enves.len()` zero-length-segment skip
loop in the envelope advance; `fuel ≥ pts.length` makes it total. -/
def enveSkip (pts : List BPoint) : Nat → ℚ → ℚ → Nat → Nat × ℚ × ℚ
  | idx, start, margin, 0 => (idx, start, margin)
  | idx, start, margin, fuel + 1 =>
    if h : idx < pts.length then
      let e := pts.get ⟨idx, h⟩
      let margin1 := e.mag - start
      if e.smp ≠ 0 then (idx, start, margin1)
      else enveSkip pts (idx + 1) e.mag margin1 fuel
    else (idx, start, margin)

/-- `NoiseBuilderUnit::get_sample`: the unit's sample for this frame (an `F`:
the envelope factor at a zero-length first segment is `0.0 * 0 / 0.0 = NaN`)
and the updated unit state. -/
def unitGetSample (T : Tables) (u : BUnit) : F × BUnit :=
  if u.enable = false then (F.fin 0, u)
  else
    let work0 : ℚ := oscGetSample T u.main
    let vol : ℚ := oscGetSample T u.volu
    let work1 : ℚ := work0 * ((vol + SAMPLING_TOP) / (SAMPLING_TOP + SAMPLING_TOP))
    let sample : F :=
      if h : u.enve_index < u.enves.length then
        F.mul (.fin work1)
          (F.add (.fin u.enve_mag_start)
            (F.div (.fin (u.enve_mag_margin * (u.enve_count : ℚ)))
                   (.fin (((u.enves.get ⟨u.enve_index, h⟩).smp : Int) : ℚ))))
      else .fin (work1 * u.enve_mag_start)
    let freqV : Int := ratToI32 (oscGetSample T u.freq)
    let main1 := oscStep T u.main (u.main.increment * T.freqGet freqV)
    let freq1 := oscStep T u.freq u.freq.increment
    let volu1 := oscStep T u.volu u.volu.increment
    let env :=
      if h : u.enve_index < u.enves.length then
        let count1 := u.enve_count + 1
        let cur := u.enves.get ⟨u.enve_index, h⟩
        if cur.smp ≤ (count1 : Int) then
          let st := enveSkip u.enves (u.enve_index + 1) cur.mag 0 u.enves.length
          (st.1, st.2.1, st.2.2, 0)
        else (u.enve_index, u.enve_mag_start, u.enve_mag_margin, count1)
      else (u.enve_index, u.enve_mag_start, u.enve_mag_margin, u.enve_count)
    (sample,
      { u with
        main := main1, freq := freq1, volu := volu1,
        enve_index := env.1, enve_mag_start := env.2.1,
        enve_mag_margin := env.2.2.1, enve_count := env.2.2.2 })

/-- `PcmWaveFormat`. -/
structure PcmFmt where
  ch : Nat
  sps : Nat
  bps : Nat
  deriving DecidableEq, Repr

/-- `Pcm`: format plus raw interleaved sample bytes. -/
structure Pcm where
  fmt : PcmFmt
  smp : List Nat
  deriving DecidableEq, Repr

/-- `write_i16::<LittleEndian>`: two's-complement, low byte first. -/
def i16leBytes (v : Int) : List Nat :=
  let u := (v % 65536).toNat
  [u % 256, u / 256]

/-- `u8::from_i16` (`src/pulse.rs`): `((bits >> 8) as i8) as u8 ^ 0x80`; the
arithmetic right shift of the clamped `i16` is floor division by 256. -/
def u8FromI16 (v : Int) : Nat := ((v / 256 % 256).toNat) ^^^ 0x80

/-- One output channel's mixed sample:
`(fold 0.0 (acc + sample * pan[i]) as i32).max(i16 MIN).min(i16 MAX)`.
The `as i32` cast sends NaN to 0 and saturates. -/
def mixChannel (sp : List (F × (ℚ × ℚ))) (i : Nat) : Int :=
  let acc := sp.foldl
    (fun a q => F.add a (F.mul q.1 (F.fin (if i = 0 then q.2.1 else q.2.2))))
    (F.fin 0)
  max (-32768) (min 32767 (F.toI32 acc))

/-- The bytes appended for one frame: for each channel, one byte through
`u8::from_i16` if `sps == 8` (the source's test really is on the sample rate),
else the two little-endian bytes of the `i16`. -/
def frameBytes (ch sps : Nat) (sp : List (F × (ℚ × ℚ))) : List Nat :=
  (List.range ch).flatMap (fun i =>
    let sample := mixChannel sp i
    if sps = 8 then [u8FromI16 sample] else i16leBytes sample)

/-- The `while smp.len() < smp_num` loop of `NoiseBuilder::build`.  Each
iteration samples every unit once (the same values feed all channels), then
appends one frame.  `fuel` bounds the iterations; `build` passes `smpNum`,
which suffices because every frame appends at least one byte per channel. -/
def buildLoop (T : Tables) (ch sps smpNum : Nat) :
    Nat → List BUnit → List Nat → List BUnit × List Nat
  | 0, units, smp => (units, smp)
  | fuel + 1, units, smp =>
    if smp.length < smpNum then
      let pairs := units.map (fun u => (unitGetSample T u, u.pan))
      let sp := pairs.map (fun q => (q.1.1, q.2))
      let units1 := pairs.map (fun q => q.1.2)
      buildLoop T ch sps smpNum fuel units1 (smp ++ frameBytes ch sps sp)
    else (units, smp)

/-- `NoiseBuilder::build`.  The three `assert!`s on the target map to the
spec's `UnsupportedTarget`; the sample-count computation
`(smp_num_44k / (44100/sps)) as u32 * (bps/8) * ch` is modelled with the f64
quotient exact, truncated toward zero. -/
def build (T : Tables) (noise : NoiseDoc) (ch sps bps : Nat) : Except PErr Pcm :=
  if ¬ (ch = 1 ∨ ch = 2) then .error .unsupportedTarget
  else if ¬ (sps = 11025 ∨ sps = 22050 ∨ sps = 44100 ∨ sps = 48000) then
    .error .unsupportedTarget
  else if ¬ (bps = 8 ∨ bps = 16) then .error .unsupportedTarget
  else
    let smpNum : Nat := noise.smp_num_44k * sps / BASIC_SPS * (bps / 8) * ch
    let units := noise.units.map (fun u => unitNew T u sps)
    let r := buildLoop T ch sps smpNum smpNum units []
    .ok ⟨⟨ch, sps, bps⟩, r.2⟩

/-- Comparison definition for C9, following the spec's words: identical to
`build` except that every sample is written as 16-bit little-endian,
unconditionally. -/
def frameBytes16 (ch : Nat) (sp : List (F × (ℚ × ℚ))) : List Nat :=
  (List.range ch).flatMap (fun i => i16leBytes (mixChannel sp i))

/-- The loop of `build16`. -/
def buildLoop16 (T : Tables) (ch sps smpNum : Nat) :
    Nat → List BUnit → List Nat → List BUnit × List Nat
  | 0, units, smp => (units, smp)
  | fuel + 1, units, smp =>
    if smp.length < smpNum then
      let pairs := units.map (fun u => (unitGetSample T u, u.pan))
      let sp := pairs.map (fun q => (q.1.1, q.2))
      let units1 := pairs.map (fun q => q.1.2)
      buildLoop16 T ch sps smpNum fuel units1 (smp ++ frameBytes16 ch sp)
    else (units, smp)

/-- `build` with unconditional 16-bit sample writes (spec-words variant). -/
def build16 (T : Tables) (noise : NoiseDoc) (ch sps bps : Nat) : Except PErr Pcm :=
  if ¬ (ch = 1 ∨ ch = 2) then .error .unsupportedTarget
  else if ¬ (sps = 11025 ∨ sps = 22050 ∨ sps = 44100 ∨ sps = 48000) then
    .error .unsupportedTarget
  else if ¬ (bps = 8 ∨ bps = 16) then .error .unsupportedTarget
  else
    let smpNum : Nat := noise.smp_num_44k * sps / BASIC_SPS * (bps / 8) * ch
    let units := noise.units.map (fun u => unitNew T u sps)
    let r := buildLoop16 T ch sps smpNum smpNum units []
    .ok ⟨⟨ch, sps, bps⟩, r.2⟩

/-! ## Claim theorems about the synthesis engine -/

/-- C1 (code evaluation at the failing input): `NoiseBuilderUnit::new`
resolves the positive pan 50 to the gain pair ((100+50)/100, 1) = (3/2, 1) —
the first channel is *amplified* — where the claim requires the mirrored
attenuated pair ((100-50)/100, 1) = (1/2, 1). -/
theorem pan_positive_amplifies_eval :
    panOf 50 = (3 / 2, 1) ∧ panOf 50 ≠ (1 / 2, 1) := by
  constructor
  · rw [panOf]
    norm_num
  · rw [panOf]
    norm_num

/-- C10 (code evaluation at the failing input): at the clamp boundary
`offset = 100`, `init_random` computes the start index
`SMP_NUM_RAND * 100 / 100 = SMP_NUM_RAND`, which is *not* a valid index into
the `SMP_NUM_RAND`-entry random table. -/
lemma ratTrunc_intCast (n : Int) : ratTrunc (n : ℚ) = n := by
  rw [ratTrunc, Rat.num_intCast, Rat.den_intCast]
  exact Int.tdiv_one n

lemma initRandomIndex_100 : initRandomIndex 100 = SMP_NUM_RAND := by
  have h1 : ((SMP_NUM_RAND : ℚ) * 100 / 100) = ((44100 : Int) : ℚ) := by
    rw [SMP_NUM_RAND]; norm_num
  rw [initRandomIndex, h1, ratToUsize, ratTrunc_intCast]
  rfl

theorem init_random_offset100_index_eval :
    initRandomIndex 100 = SMP_NUM_RAND ∧ ¬ initRandomIndex 100 < SMP_NUM_RAND := by
  refine ⟨initRandomIndex_100, ?_⟩
  rw [initRandomIndex_100]
  omega

/-- C2 (code evaluation at the failing input): building the empty instrument
with `smp_num_44k = 1` at channels 1, 44100 Hz, 8 bits per sample yields a
2-byte buffer (one 16-bit sample), not the 1 byte the claim's formula
`frames · channels · bits/8 = 1` requires: the loop writes 16-bit samples
regardless of the bit depth and overruns the computed byte count. -/
theorem build_bps8_overrun_eval :
    build zeroTables ⟨[], 1⟩ 1 44100 8 = .ok ⟨⟨1, 44100, 8⟩, [0, 0]⟩ ∧
    (2 : Nat) ≠ 1 * 1 * (8 / 8) := by
  constructor
  · rfl
  · decide

/-- The mixed sample of an empty unit list is 0 on every channel. -/
lemma mixChannel_nil (i : Nat) : mixChannel [] i = 0 := rfl

/-- With no units and a 16-bit write path, one frame is `2 * ch` zero bytes. -/
lemma frameBytes_nil (ch sps : Nat) (hsps : sps ≠ 8) :
    frameBytes ch sps [] = List.replicate (2 * ch) 0 := by
  rw [frameBytes]
  induction ch with
  | zero => rfl
  | succ n ih =>
    rw [List.range_succ, List.flatMap_append, ih]
    rw [show 2 * (n + 1) = 2 * n + 2 by ring, List.replicate_add]
    congr 1
    simp [mixChannel_nil, hsps, i16leBytes]

/-- The build loop over an empty unit list appends exactly the missing zero
bytes, whenever the missing count is a whole number of frames and the fuel
covers it. -/
lemma buildLoop_nilUnits (T : Tables) (ch sps smpNum : Nat) (hsps : sps ≠ 8) :
    ∀ (fuel : Nat) (smp : List Nat),
      smpNum - smp.length ≤ fuel → (2 * ch) ∣ (smpNum - smp.length) → 0 < ch →
      buildLoop T ch sps smpNum fuel [] smp
        = ([], smp ++ List.replicate (smpNum - smp.length) 0) := by
  intro fuel
  induction fuel with
  | zero =>
    intro smp hle hdvd hch
    rw [buildLoop]
    have h0 : smpNum - smp.length = 0 := by omega
    rw [h0]
    simp
  | succ n ih =>
    intro smp hle hdvd hch
    rw [buildLoop]
    by_cases hlen : smp.length < smpNum
    · rw [if_pos hlen]
      simp only [List.map_nil]
      rw [frameBytes_nil _ _ hsps]
      have hlen2 : (smp ++ List.replicate (2 * ch) 0).length = smp.length + 2 * ch := by
        simp
      rcases hdvd with ⟨k, hk⟩
      match k, hk with
      | 0, hk => omega
      | k + 1, hk =>
        rw [Nat.mul_succ] at hk
        have ih2 := ih (smp ++ List.replicate (2 * ch) 0)
          (by simp only [List.length_append, List.length_replicate]; omega)
          (⟨k, by simp only [List.length_append, List.length_replicate]; omega⟩) hch
        have harith : 2 * ch + (smpNum - (smp.length + 2 * ch)) = smpNum - smp.length := by
          omega
        rw [ih2, hlen2, List.append_assoc, ← List.replicate_add, harith]
    · rw [if_neg hlen]
      have h0 : smpNum - smp.length = 0 := by omega
      rw [h0]
      simp

/-- The bytes of the C3 scenario:
`"PTNOISE-" ++ u32le(20120418) ++ flex(44100) ++ u8(0)`. -/
def c3bytes : List Nat :=
  NOISE_CODE ++ [0x62, 0x03, 0x33, 0x01] ++ [0xC4, 0xD8, 0x02] ++ [0]

/-- C3: parsing the boundary buffer (version exactly 20120418, one-second
duration, zero units) succeeds with `reference_duration = 44100` and an empty
unit list — for every unit parser, since no unit bytes exist — and building
it at (2 ch, 44100 Hz, 16 bit) yields exactly 44100 silent frames = 176400
zero bytes, for every table contents. -/
theorem parse_and_build_silent_one_second
    (pu : List Nat → Except PErr (NUnit × List Nat)) (T : Tables) :
    parseNoise pu c3bytes = .ok (⟨[], 44100⟩, []) ∧
    build T ⟨[], 44100⟩ 2 44100 16
      = .ok ⟨⟨2, 44100, 16⟩, List.replicate 176400 0⟩ := by
  constructor
  · rfl
  · have hb := buildLoop_nilUnits T 2 44100 176400 (by norm_num) 176400 []
      (by norm_num) (by norm_num) (by norm_num)
    norm_num [build, BASIC_SPS] at hb ⊢
    rw [hb]

/-- Away from `sps = 8`, a frame's bytes are the unconditional 16-bit ones. -/
lemma frameBytes_ne8 (ch sps : Nat) (hsps : sps ≠ 8) (sp : List (F × (ℚ × ℚ))) :
    frameBytes ch sps sp = frameBytes16 ch sp := by
  simp [frameBytes, frameBytes16, hsps]

/-- Away from `sps = 8` the two loops agree. -/
lemma buildLoop_ne8 (T : Tables) (ch sps : Nat) (hsps : sps ≠ 8) :
    ∀ smpNum fuel units smp,
      buildLoop T ch sps smpNum fuel units smp
        = buildLoop16 T ch sps smpNum fuel units smp := by
  intro smpNum fuel
  induction fuel with
  | zero => intro units smp; rfl
  | succ n ih =>
    intro units smp
    rw [buildLoop, buildLoop16]
    by_cases h : smp.length < smpNum
    · simp only [if_pos h, frameBytes_ne8 ch sps hsps, ih]
    · rw [if_neg h, if_neg h]

/-- C9: for every 8-bit-per-sample build over an allowed target, the samples
are nevertheless written as 16-bit little-endian values — the branch that
would select `u8::from_i16` tests the sample rate (`sps == 8`), which the
allowed set excludes, not the bit depth — while the returned format metadata
still records 8 bits per sample. -/
theorem bps8_writes_16bit_samples (T : Tables) (noise : NoiseDoc) (ch sps : Nat)
    (hch : ch = 1 ∨ ch = 2)
    (hsps : sps = 11025 ∨ sps = 22050 ∨ sps = 44100 ∨ sps = 48000) :
    build T noise ch sps 8 = build16 T noise ch sps 8 ∧
    ∀ p, build T noise ch sps 8 = .ok p → p.fmt.bps = 8 := by
  have hsps8 : sps ≠ 8 := by rcases hsps with h | h | h | h <;> omega
  constructor
  · rw [build, build16]
    rw [if_neg (not_not_intro hch), if_neg (not_not_intro hsps),
        if_neg (not_not_intro (Or.inl rfl)),
        if_neg (not_not_intro hch), if_neg (not_not_intro hsps),
        if_neg (not_not_intro (Or.inl rfl))]
    simp only [buildLoop_ne8 T ch sps hsps8]
  · intro p hp
    rw [build] at hp
    rw [if_neg (not_not_intro hch), if_neg (not_not_intro hsps),
        if_neg (not_not_intro (Or.inl rfl))] at hp
    cases hp
    rfl

/-- Witness for C9 at a concrete instrument and target. -/
theorem bps8_writes_16bit_samples_witness :
    build zeroTables ⟨[], 1⟩ 1 44100 8 = build16 zeroTables ⟨[], 1⟩ 1 44100 8 :=
  (bps8_writes_16bit_samples zeroTables ⟨[], 1⟩ 1 44100 (Or.inl rfl)
    (Or.inr (Or.inr (Or.inl rfl)))).1

/-! ## C7: the single (0,0) envelope point -/

lemma F.mul_nan (x : F) : F.mul x F.nan = F.nan := by cases x <;> rfl

lemma F.add_fin_nan (a : ℚ) : F.add (F.fin a) F.nan = F.nan := rfl

lemma F.div_fin_zero (a : ℚ) : F.div (F.fin a) (F.fin 0) = F.nan := by
  simp [F.div]

/-- One state step of a unit (the sample discarded). -/
def unitStepState (T : Tables) (u : BUnit) : BUnit := (unitGetSample T u).2

/-- The sample a parsed unit contributes at frame `t` of a synthesis run at
rate `sps`. -/
def sampleAt (T : Tables) (u : NUnit) (sps : Nat) (t : Nat) : F :=
  (unitGetSample T ((unitStepState T)^[t] (unitNew T u sps))).1

/-- A concrete unit with the single envelope point (0, 0): enabled, centered,
no oscillators. -/
def c7unit : NUnit := ⟨true, [⟨0, 0⟩], 0, Option.none, Option.none, Option.none⟩

/-- If the current envelope segment has zero sample length, the envelope
factor is `start + margin * count / 0`, whose division is `0.0/0.0 = NaN`
here (the initial margin is 0), so the frame's sample is NaN. -/
lemma sample_nan_of_zero_seg (T : Tables) (u : BUnit) (hen : u.enable = true)
    (h : u.enve_index < u.enves.length)
    (hsmp : (u.enves.get ⟨u.enve_index, h⟩).smp = 0) :
    (unitGetSample T u).1 = F.nan := by
  rw [unitGetSample, if_neg (by simp [hen])]
  simp only [dif_pos h, hsmp]
  simp [F.div_fin_zero, F.add_fin_nan, F.mul_nan]

/-- Once the envelope index has passed the end of the list, a step changes
none of `enable`, `enves`, `enve_index`, `enve_mag_start`. -/
lemma unitGetSample_frozen (T : Tables) (u : BUnit)
    (h : ¬ u.enve_index < u.enves.length) :
    (unitGetSample T u).2.enable = u.enable ∧
    (unitGetSample T u).2.enves = u.enves ∧
    (unitGetSample T u).2.enve_index = u.enve_index ∧
    (unitGetSample T u).2.enve_mag_start = u.enve_mag_start := by
  rw [unitGetSample]
  by_cases he : u.enable = false
  · rw [if_pos he]
    exact ⟨rfl, rfl, rfl, rfl⟩
  · rw [if_neg he]
    simp only [dif_neg h]
    refine ⟨?_, ?_, ?_, ?_⟩ <;> trivial

/-- Past the envelope with a zero held magnitude, every sample is exactly 0. -/
lemma sample_zero_of_frozen (T : Tables) (u : BUnit) (hen : u.enable = true)
    (h : ¬ u.enve_index < u.enves.length) (hst : u.enve_mag_start = 0) :
    (unitGetSample T u).1 = F.fin 0 := by
  rw [unitGetSample, if_neg (by simp [hen])]
  simp only [dif_neg h, hst, mul_zero]

/-- The builder state of a unit parsed with the single envelope point (0, 0)
has the single builder point (0, 0) at every rate. -/
lemma unitNew_c7_enves (T : Tables) (u : NUnit) (sps : Nat)
    (henv : u.enves = [⟨0, 0⟩]) :
    (unitNew T u sps).enves = [⟨0, 0⟩] := by
  simp [unitNew, henv, Int.zero_tdiv]

/-- After the very first step, the envelope of such a unit is exhausted with
held magnitude 0. -/
lemma state1_frozen (T : Tables) (u : NUnit) (sps : Nat) (hen : u.enable = true)
    (henv : u.enves = [⟨0, 0⟩]) :
    (unitStepState T (unitNew T u sps)).enable = true ∧
    ¬ (unitStepState T (unitNew T u sps)).enve_index
        < (unitStepState T (unitNew T u sps)).enves.length ∧
    (unitStepState T (unitNew T u sps)).enve_mag_start = 0 := by
  have h0 : (unitNew T u sps).enves = [⟨0, 0⟩] := unitNew_c7_enves T u sps henv
  rw [unitStepState, unitGetSample, if_neg (by simp [unitNew, hen])]
  have hlen : (unitNew T u sps).enve_index < (unitNew T u sps).enves.length := by
    rw [h0]; show 0 < 1; omega
  simp only [dif_pos hlen]
  simp [unitNew, henv, enveSkip, hen, Int.zero_tdiv]

/-- Iterating from a frozen state stays frozen. -/
lemma stateN_frozen (T : Tables) (s : BUnit) (hen : s.enable = true)
    (h : ¬ s.enve_index < s.enves.length) (hst : s.enve_mag_start = 0) (n : Nat) :
    ((unitStepState T)^[n] s).enable = true ∧
    ¬ ((unitStepState T)^[n] s).enve_index < ((unitStepState T)^[n] s).enves.length ∧
    ((unitStepState T)^[n] s).enve_mag_start = 0 := by
  induction n with
  | zero => exact ⟨hen, h, hst⟩
  | succ m ih =>
    rw [Function.iterate_succ_apply']
    obtain ⟨a, b, c⟩ := ih
    have hf := unitGetSample_frozen T ((unitStepState T)^[m] s) b
    refine ⟨?_, ?_, ?_⟩
    · rw [unitStepState, hf.1]; exact a
    · rw [unitStepState, hf.2.1, hf.2.2.1]; exact b
    · rw [unitStepState, hf.2.2.2]; exact c

/-- C7 (amended): a unit with the single envelope point (0 ms, 0%) yields NaN
at the very first frame — the envelope factor is `0.0 + 0.0 * 0 / 0.0` — and
exactly 0.0 at every later frame, at every rate and for every table contents;
the NaN is turned into a zero output sample by the saturating `as i32` cast,
but it is not itself a zero contribution (NaN absorbs the whole mix). -/
theorem enve_zero_point_samples (T : Tables) (u : NUnit) (sps : Nat)
    (hen : u.enable = true) (henv : u.enves = [⟨0, 0⟩]) (t : Nat) :
    sampleAt T u sps t = if t = 0 then F.nan else F.fin 0 := by
  have h0 : (unitNew T u sps).enves = [⟨0, 0⟩] := unitNew_c7_enves T u sps henv
  cases t with
  | zero =>
    rw [sampleAt, if_pos rfl]
    simp only [Function.iterate_zero_apply]
    have hlen : (unitNew T u sps).enve_index < (unitNew T u sps).enves.length := by
      rw [h0]; show 0 < 1; omega
    apply sample_nan_of_zero_seg T _ (by simp [unitNew, hen]) hlen
    simp [unitNew, henv, Int.zero_tdiv]
  | succ m =>
    rw [sampleAt, if_neg (Nat.succ_ne_zero m), Function.iterate_succ_apply]
    have hs1 := state1_frozen T u sps hen henv
    have hfr := stateN_frozen T (unitStepState T (unitNew T u sps))
      hs1.1 hs1.2.1 hs1.2.2 m
    exact sample_zero_of_frozen T _ hfr.1 hfr.2.1 hfr.2.2

/-- Witness for the amended C7 at the concrete unit, rate 44100, frame 1. -/
theorem enve_zero_point_samples_witness :
    sampleAt zeroTables c7unit 44100 1 = if 1 = 0 then F.nan else F.fin 0 :=
  enve_zero_point_samples zeroTables c7unit 44100 rfl rfl 1

/-- C7 (counterexample): the concrete enabled unit with the single envelope
point (0, 0) contributes NaN — not zero — as its very first sample. -/
theorem enve_zero_point_first_sample_nan :
    sampleAt zeroTables c7unit 44100 0 = F.nan ∧ F.nan ≠ F.fin 0 := by
  constructor
  · rw [sampleAt]
    simp only [Function.iterate_zero_apply]
    have h0 : (unitNew zeroTables c7unit 44100).enves = [⟨0, 0⟩] :=
      unitNew_c7_enves zeroTables c7unit 44100 rfl
    have hlen : (unitNew zeroTables c7unit 44100).enve_index
        < (unitNew zeroTables c7unit 44100).enves.length := by
      rw [h0]; show 0 < 1; omega
    apply sample_nan_of_zero_seg zeroTables _ (by simp [unitNew, c7unit]) hlen
    simp [unitNew, c7unit, Int.zero_tdiv]
  · intro h
    cases h
